import Mathlib

/-
  Shallow embedding of the game-state logic of src/ChessBot.py
  (class ChessBot), together with proofs of the specified properties.

  Conventions of the embedding:
  * Python strings become Lean String values; Python substring tests
    (needle in hay) become strContains; str.lower() becomes strLower
    (ASCII case folding, which agrees with Python on the ASCII entries
    these claims are about).
  * Python int arithmetic becomes Int arithmetic (Python mod on a
    positive divisor agrees with Int emod).
  * The mutable bot state (self.moves, self.moves_elements, self.flag,
    self.color) is passed explicitly; side effects become returned
    values.
-/

namespace ChessBot

/-- The color played by the bot: self.color in ChessBot.py. -/
inductive Side where
  | white
  | black
deriving DecidableEq, Repr

/-- Game outcome as reported by handle_end_game in ChessBot.py.
The code reports outcomes only through its printed messages:
"We win!", "We lost!", "It is a draw" (the draw/aborted branch prints
the draw message), or nothing (game continues). The aborted
constructor exists to state spec-level claims; the code itself never
produces it. -/
inductive GameOutcome where
  | ongoing
  | win
  | loss
  | draw
  | aborted
deriving DecidableEq, Repr

/-- ASCII lower-casing of one character, as Python str.lower does on
ASCII input. -/
def lowerChar (c : Char) : Char :=
  if 65 ≤ c.toNat ∧ c.toNat ≤ 90 then Char.ofNat (c.toNat + 32) else c

/-- Python s.lower() (restricted to ASCII, which covers every string
occurring in the program). -/
def strLower (s : String) : String :=
  ⟨s.data.map lowerChar⟩

/-- startsList b a decides whether the list b occurs at the head of a. -/
def startsList : List Char → List Char → Bool
  | [], _ => true
  | _ :: _, [] => false
  | c :: cs, d :: ds => if c = d then startsList cs ds else false

/-- strContains hay needle is the Python membership test
(needle in hay): needle occurs contiguously somewhere in hay. -/
def strContains (hay needle : String) : Bool :=
  (List.range (hay.data.length + 1)).any (fun i => startsList needle.data (hay.data.drop i))

/-- Result of one call to ChessBot.handle_end_game:
setsFlag records whether the call assigns self.flag = True,
cont is the returned bool (True means the game continues), and
outcome is the outcome the call reports (via its print statements). -/
structure EndGameResult where
  setsFlag : Bool
  cont : Bool
  outcome : GameOutcome
deriving DecidableEq, Repr

/-- ChessBot.handle_end_game (ChessBot.py lines 247-269), as a function
of the color and the trailing history entry self.moves[-1].
The victory branch is checked first; the draw/aborted branch prints
the draw message, so its reported outcome is draw. -/
def handle_end_game (color : Side) (entry : String) : EndGameResult :=
  let low := strLower entry
  if strContains low "victorious" then
    if strContains low "white is victorious" && color == Side.white then
      ⟨true, false, GameOutcome.win⟩
    else if strContains low "white is victorious" && color == Side.black then
      ⟨true, false, GameOutcome.loss⟩
    else if strContains low "black is victorious" && color == Side.black then
      ⟨true, false, GameOutcome.win⟩
    else
      ⟨true, false, GameOutcome.loss⟩
  else if strContains low "draw" || strContains low "aborted" then
    ⟨true, false, GameOutcome.draw⟩
  else
    ⟨false, true, GameOutcome.ongoing⟩

/-- ChessBot.determine_turn (ChessBot.py lines 286-295): the parity
rule on the length of self.moves. Python mod by 3 agrees with Int
emod. -/
def determine_turn (color : Side) (moves : List String) : Bool :=
  match color with
  | Side.white => ((moves.length : ℤ) % 3 == 0)
  | Side.black => (((moves.length : ℤ) - 2) % 3 == 0)

/-- ChessBot.is_turn (ChessBot.py lines 271-284), as a function of the
color and the move history after the poll performed by get_moves. -/
def is_turn (color : Side) (moves : List String) : Bool :=
  match moves.getLast? with
  | none => color == Side.white
  | some last =>
      if (handle_end_game color last).cont then determine_turn color moves else false

/-- The moves executed by ChessBot.execute_bongcloud_moves
(ChessBot.py lines 202-216). -/
def bongcloud_moves (color : Side) : List String :=
  if color = Side.white then ["e2e3", "e1e2", "e2e1"] else ["e7e6", "e8e7", "e7e8"]

/-- The externally visible actions of ChessBot.initialize_game:
openingMove is the move passed to execute_move directly in the
non-bongcloud branch, scriptedMoves is the sequence handed to
execute_bongcloud_moves, and enginePosition is the move list passed to
stockfish.set_position (no argument means the empty list, i.e. the
starting position). -/
structure InitActions where
  openingMove : Option String
  scriptedMoves : List String
  enginePosition : List String
deriving DecidableEq, Repr

/-- ChessBot.initialize_game (ChessBot.py lines 172-200), as a function
of the bongcloud flag, the determined color, and the list of mainline
moves parsed from the board after the scripted opening (the list named
moves just before stockfish.set_position(moves[:-1])).
In the non-bongcloud branch the code runs execute_move("e2e4") iff the
color is white and then calls stockfish.set_position() with no moves;
only the bongcloud branch reads moves off the board and passes
moves[:-1] to the engine. -/
def initialize_game (bongcloud : Bool) (color : Side) (boardMoves : List String) :
    InitActions :=
  if !bongcloud then
    ⟨if color = Side.white then some "e2e4" else none, [], []⟩
  else
    ⟨none, bongcloud_moves color, boardMoves.dropLast⟩

/-- One iteration of the loop body in ChessBot.get_next_move
(ChessBot.py lines 304-309): if the window already holds two moves,
pop the oldest (index 0) before appending the new move. -/
def window_step (acc : List String) (m : String) : List String :=
  (if 2 ≤ acc.length then acc.drop 1 else acc) ++ [m]

/-- The move window that ChessBot.get_next_move builds from the parsed
mainline moves and feeds to
stockfish.make_moves_from_current_position. -/
def engine_delta (mainline : List String) : List String :=
  mainline.foldl window_step []

/-- The per-piece promotion rank offsets (the move_adjustments dict in
ChessBot.handle_promotion, with its .get default of 0). -/
def move_adjustments (c : Char) : ℤ :=
  if c = 'q' then 0
  else if c = 'n' then -1
  else if c = 'r' then -2
  else if c = 'b' then -3
  else 0

/-- Python int() applied to a single digit character (as in
int(move[3]) in ChessBot.handle_promotion). -/
def charDigit (c : Char) : ℤ :=
  (c.toNat : ℤ) - 48

/-- ChessBot.handle_promotion (ChessBot.py lines 385-400), returning
the square (file character, rank number) whose table point supplies
the y coordinate of the promotion click; none when no click happens
(the guard move[-1] in "qnrb" fails) or the move string is too short
for the indexing the code performs. -/
def handle_promotion (color : Side) (move : List Char) : Option (Char × ℤ) :=
  match move.getLast? with
  | none => none
  | some c =>
      if c = 'q' ∨ c = 'n' ∨ c = 'r' ∨ c = 'b' then
        match move.get? 2, move.get? 3 with
        | some f, some r =>
            let adjustment := move_adjustments c
            let adjustment := if color = Side.black then -adjustment else adjustment
            some (f, charDigit r + adjustment)
        | _, _ => none
      else none

/-- One rendered move-log entry. Selenium WebElement equality compares
the element handle (session and element id), not the text, so the
embedding carries an identity id distinct from the text. -/
structure MoveLogEntry where
  id : Nat
  text : String
deriving DecidableEq, Repr

/-- The reconciler part of the bot state: self.moves_elements (the
recorded entry handles) and self.moves (the textual history). -/
structure ReconcilerState where
  moves_elements : List MoveLogEntry
  moves : List String
deriving DecidableEq, Repr

/-- The Python membership test move in self.moves_elements: WebElement
equality, i.e. identity of the entry handle. -/
def entrySeen (recorded : List MoveLogEntry) (e : MoveLogEntry) : Bool :=
  recorded.any (fun r => r.id == e.id)

/-- Python str.isdigit(): nonempty and every character a digit. -/
def isDigitStr (s : String) : Bool :=
  !s.data.isEmpty && s.data.all Char.isDigit

/-- ChessBot.get_moves (ChessBot.py lines 218-229), as a function of
the current state and the full list of rendered entries: entries not
yet recorded (by identity) are appended to moves_elements, and their
texts (with a trailing dot added to purely numeric texts) are appended
to moves. -/
def get_moves (st : ReconcilerState) (rendered : List MoveLogEntry) : ReconcilerState :=
  let filtered := rendered.filter (fun m => !entrySeen st.moves_elements m)
  ⟨st.moves_elements ++ filtered,
   st.moves ++ filtered.map (fun m => if isDigitStr m.text then m.text ++ "." else m.text)⟩

/-- Python round() on a rational value: round half to even (banker
rounding). The float expressions in calculate_positions are exact
multiples of 1/16 of integers, hence exactly representable, so
modelling them as rationals is faithful. -/
def pyRound (q : ℚ) : ℤ :=
  if Int.fract q < 1/2 then ⌊q⌋
  else if 1/2 < Int.fract q then ⌊q⌋ + 1
  else if ⌊q⌋ % 2 = 0 then ⌊q⌋ else ⌊q⌋ + 1

/-- The files list of ChessBot.get_board_coords. -/
def files : List Char :=
  ['a', 'b', 'c', 'd', 'e', 'f', 'g', 'h']

/-- ChessBot.calculate_positions (ChessBot.py lines 332-368), as the
screen point for one square (file character and rank number): white
orientation uses files.index(file) and 8 - rank, black orientation
uses the index in the reversed files list and rank - 1. -/
def calculate_positions (color : Side) (ax ay w h : ℤ) (file : Char) (rank : ℤ) :
    ℤ × ℤ :=
  match color with
  | Side.white =>
      (pyRound ((w : ℚ)/8 * (files.indexOf file : ℕ) + ((w : ℚ)/8)/2 + (ax : ℤ)),
       pyRound ((h : ℚ)/8 * ((8 - rank : ℤ) : ℚ) + ((h : ℚ)/8)/2 + (ay : ℤ)))
  | Side.black =>
      (pyRound ((w : ℚ)/8 * (files.reverse.indexOf file : ℕ) + ((w : ℚ)/8)/2 + (ax : ℤ)),
       pyRound ((h : ℚ)/8 * ((rank - 1 : ℤ) : ℚ) + ((h : ℚ)/8)/2 + (ay : ℤ)))

/-- The victory phrase naming a side, as matched by handle_end_game. -/
def victory_phrase : Side → String
  | Side.white => "white is victorious"
  | Side.black => "black is victorious"

/-- The opposite side. -/
def other_side : Side → Side
  | Side.white => Side.black
  | Side.black => Side.white

theorem startsList_iff (b a : List Char) : startsList b a = true ↔ ∃ t, a = b ++ t := by
  induction b generalizing a with
  | nil => simp [startsList]
  | cons c cs ih =>
      cases a with
      | nil => simp [startsList]
      | cons d ds =>
          simp only [startsList]
          by_cases h : c = d
          · subst h
            simp [ih]
          · simp only [if_neg h]
            constructor
            · intro hfalse
              exact absurd hfalse (by simp)
            · rintro ⟨t, ht⟩
              injection ht with h1 h2
              exact absurd h1.symm h

theorem strContains_iff (hay needle : String) :
    strContains hay needle = true ↔ ∃ s t, hay.data = s ++ needle.data ++ t := by
  unfold strContains
  rw [List.any_eq_true]
  constructor
  · rintro ⟨i, _, hp⟩
    rw [startsList_iff] at hp
    obtain ⟨t, ht⟩ := hp
    refine ⟨hay.data.take i, t, ?_⟩
    rw [List.append_assoc, ← ht, List.take_append_drop]
  · rintro ⟨s, t, hdecomp⟩
    refine ⟨s.length, ?_, ?_⟩
    · rw [List.mem_range]
      have : hay.data.length = s.length + needle.data.length + t.length := by
        rw [hdecomp]; simp; omega
      omega
    · rw [startsList_iff]
      refine ⟨t, ?_⟩
      rw [hdecomp, List.append_assoc, List.drop_left]

theorem strContains_mono (a b c : String) (hab : strContains a b = true)
    (hbc : strContains b c = true) : strContains a c = true := by
  rw [strContains_iff] at *
  obtain ⟨s, t, hst⟩ := hab
  obtain ⟨u, v, huv⟩ := hbc
  exact ⟨s ++ u, v ++ t, by rw [hst, huv]; simp [List.append_assoc]⟩

/-- Claim C1: for every non-empty move history whose trailing entry is
not terminal (handle_end_game lets the game continue), is_turn returns
true for white exactly when the history length is 0 mod 3, and for
black exactly when the length minus 2 is 0 mod 3 (Python integer mod,
embedded as Int emod). -/
theorem is_turn_parity (color : Side) (moves : List String) (hne : moves ≠ [])
    (hcont : (handle_end_game color (moves.getLast hne)).cont = true) :
    (is_turn color moves = true ↔
      (if color = Side.white then (moves.length : ℤ) % 3 = 0
       else ((moves.length : ℤ) - 2) % 3 = 0)) := by
  unfold is_turn
  rw [List.getLast?_eq_getLast moves hne]
  simp only [hcont, if_true]
  cases color <;> simp [determine_turn]

/-- Witness for claim C1: the specified scenario history
["1.", "e4", "e5"] with the bot playing white (length 3, 3 mod 3 = 0),
where is_turn returns true. -/
theorem is_turn_parity_witness : is_turn Side.white ["1.", "e4", "e5"] = true :=
  (is_turn_parity Side.white ["1.", "e4", "e5"] (by decide) (by decide)).mpr (by decide)

/-- Claim C3: a trailing entry whose lowercase text contains both the
victory marker "victorious" and the substring "draw" is classified by
the victory branch (outcome win or loss), never as a draw: the victory
check precedes the draw and abort check. -/
theorem handle_end_game_victory_precedence (color : Side) (entry : String)
    (hv : strContains (strLower entry) "victorious" = true)
    (hd : strContains (strLower entry) "draw" = true) :
    ((handle_end_game color entry).outcome = GameOutcome.win ∨
      (handle_end_game color entry).outcome = GameOutcome.loss) ∧
    (handle_end_game color entry).outcome ≠ GameOutcome.draw := by
  unfold handle_end_game
  simp only [hv, if_true]
  split_ifs <;> simp

/-- Witness for claim C3: a concrete trailing entry containing both a
victory phrase and the substring "draw". -/
theorem handle_end_game_victory_precedence_witness :
    (((handle_end_game Side.white "White is victorious - draw declined").outcome =
        GameOutcome.win ∨
      (handle_end_game Side.white "White is victorious - draw declined").outcome =
        GameOutcome.loss) ∧
    (handle_end_game Side.white "White is victorious - draw declined").outcome ≠
      GameOutcome.draw) :=
  handle_end_game_victory_precedence Side.white "White is victorious - draw declined"
    (by decide) (by decide)

/-- Counterexample to claim C4 as stated: on the trailing entry
"Game aborted" handle_end_game takes exactly the same branch as on a
draw entry and reports the draw outcome (the code prints the draw
message), so the detected outcome is draw, not a distinct aborted
outcome. -/
theorem handle_end_game_aborted_counterexample :
    handle_end_game Side.white "Game aborted" =
      handle_end_game Side.white "The game is a draw" ∧
    (handle_end_game Side.white "Game aborted").outcome = GameOutcome.draw ∧
    (handle_end_game Side.white "Game aborted").outcome ≠ GameOutcome.aborted := by
  decide

/-- Claim C4 (amended): when the trailing entry contains the
case-insensitive substring "aborted" (and no victory phrase, which
would take precedence), the game is detected as over and the
termination flag is set, but the outcome is reported through the
combined draw-or-aborted branch, which announces a draw. -/
theorem handle_end_game_aborted (color : Side) (entry : String)
    (ha : strContains (strLower entry) "aborted" = true)
    (hv : strContains (strLower entry) "victorious" = false) :
    handle_end_game color entry = ⟨true, false, GameOutcome.draw⟩ := by
  unfold handle_end_game
  simp [ha, hv]

/-- Witness for claim C4 (amended): the specified scenario entry
"Game aborted". -/
theorem handle_end_game_aborted_witness :
    handle_end_game Side.white "Game aborted" = ⟨true, false, GameOutcome.draw⟩ :=
  handle_end_game_aborted Side.white "Game aborted" (by decide) (by decide)

/-- Claim C5: when the trailing entry names exactly one side in its
victory phrase, the outcome is win exactly when the named side is the
side the bot plays, and loss otherwise. -/
theorem handle_end_game_victory_side (color named : Side) (entry : String)
    (hn : strContains (strLower entry) (victory_phrase named) = true)
    (ho : strContains (strLower entry) (victory_phrase (other_side named)) = false) :
    (handle_end_game color entry).outcome =
      (if named = color then GameOutcome.win else GameOutcome.loss) := by
  have hv : strContains (strLower entry) "victorious" = true :=
    strContains_mono _ _ _ hn (by cases named <;> decide)
  cases named <;> cases color <;>
    simp only [victory_phrase, other_side] at hn ho <;>
    simp [handle_end_game, hv, hn, ho]

/-- Witness for claim C5: the specified scenario, trailing entry
"Black is victorious" with the bot playing black, giving a win. -/
theorem handle_end_game_victory_side_witness :
    (handle_end_game Side.black "Black is victorious").outcome = GameOutcome.win := by
  have h := handle_end_game_victory_side Side.black Side.black "Black is victorious"
    (by decide) (by decide)
  simpa using h

/-- Claim C10: a trailing entry whose lowercase text contains
"victorious" but names neither side still sets the termination flag,
ends the game, and is reported as a loss, whatever side the bot
plays. -/
theorem handle_end_game_no_side_named (color : Side) (entry : String)
    (hv : strContains (strLower entry) "victorious" = true)
    (hw : strContains (strLower entry) "white is victorious" = false)
    (hb : strContains (strLower entry) "black is victorious" = false) :
    handle_end_game color entry = ⟨true, false, GameOutcome.loss⟩ := by
  unfold handle_end_game
  cases color <;> simp [hv, hw, hb]

/-- Witness for claim C10: a concrete entry containing "victorious"
without naming a side. -/
theorem handle_end_game_no_side_named_witness :
    handle_end_game Side.white "The bot is victorious" =
      ⟨true, false, GameOutcome.loss⟩ :=
  handle_end_game_no_side_named Side.white "The bot is victorious"
    (by decide) (by decide) (by decide)

/-- Counterexample to claim C2 as stated: with the scripted-opening
mode off, the opening move is not played when the bot is black, it is
played when the bot is white, and the engine position is reset to the
start (empty move list) even when moves are already on the board. -/
theorem initialize_game_counterexample :
    (initialize_game false Side.black []).openingMove = none ∧
    (initialize_game false Side.white []).openingMove = some "e2e4" ∧
    (initialize_game false Side.white ["e2e4", "e7e5"]).enginePosition = [] := by
  decide

/-- Claim C2 (amended): when the scripted-opening mode is not active,
the opening move e2e4 is played exactly when the bot plays the first
side (white), and the engine is set to the starting position;
synchronizing the engine from moves already on the board happens only
in scripted-opening mode, where the engine receives the parsed board
moves without the last one. -/
theorem initialize_game_branches (color : Side) (boardMoves : List String) :
    initialize_game false color boardMoves =
      ⟨if color = Side.white then some "e2e4" else none, [], []⟩ ∧
    initialize_game true color boardMoves =
      ⟨none, bongcloud_moves color, boardMoves.dropLast⟩ := by
  cases color <;> exact ⟨rfl, rfl⟩

theorem engine_delta_append (ms : List String) (m : String) :
    engine_delta (ms ++ [m]) = window_step (engine_delta ms) m := by
  simp [engine_delta, List.foldl_append, window_step]

theorem engine_delta_eq_drop (ms : List String) :
    engine_delta ms = ms.drop (ms.length - 2) := by
  induction ms using List.reverseRecOn with
  | nil => rfl
  | append_singleton ms m ih =>
      rw [engine_delta_append, ih]
      rcases Nat.lt_or_ge ms.length 2 with hlt | hge
      · have h0 : ms.length - 2 = 0 := by omega
        have h1 : (ms ++ [m]).length - 2 = 0 := by simp; omega
        rw [h0, h1, List.drop_zero, List.drop_zero]
        unfold window_step
        rw [if_neg (by omega)]
      · have hlen : (ms.drop (ms.length - 2)).length = 2 := by simp; omega
        unfold window_step
        rw [if_pos (by omega), List.drop_drop]
        have h2 : (ms ++ [m]).length - 2 = ms.length - 1 := by
          simp only [List.length_append, List.length_cons, List.length_nil]
          omega
        have h3 : ms.length - 2 + 1 = ms.length - 1 := by omega
        have h4 : ms.length - 1 - ms.length = 0 := by omega
        rw [h2, List.drop_append_eq_append_drop, h3, h4, List.drop_zero]

/-- Claim C7: the move window fed to the engine by get_next_move is
exactly the most recent at most two mainline moves in order (the
suffix of length two of the accumulated sequence), its length never
exceeds two, and whenever the window already holds two entries one
step of the fold drops the oldest entry before appending the new
move. -/
theorem engine_delta_window (ms : List String) :
    engine_delta ms = ms.drop (ms.length - 2) ∧
    (engine_delta ms).length ≤ 2 ∧
    ∀ acc m, 2 ≤ acc.length → window_step acc m = acc.drop 1 ++ [m] := by
  refine ⟨engine_delta_eq_drop ms, ?_, ?_⟩
  · rw [engine_delta_eq_drop]
    simp
    omega
  · intro acc m hacc
    unfold window_step
    rw [if_pos hacc]

/-- Witness for claim C7: the third conjunct has a hypothesis; at a
window that already holds two moves the step drops the oldest entry
first. -/
theorem engine_delta_window_witness :
    engine_delta ["d2d4", "d7d5"] = ["d2d4", "d7d5"].drop (["d2d4", "d7d5"].length - 2) ∧
    window_step ["d2d4", "d7d5"] "c2c4" = ["d2d4", "d7d5"].drop 1 ++ ["c2c4"] :=
  ⟨(engine_delta_window ["d2d4", "d7d5"]).1,
   (engine_delta_window []).2.2 ["d2d4", "d7d5"] "c2c4" (by decide)⟩

/-- Claim C8: for a promotion move whose final character selects the
knight, the promotion click square keeps the destination file and its
rank is the destination rank minus one when the bot plays white, and
the destination rank plus one when the bot plays black. -/
theorem handle_promotion_knight_offset (a b f r : Char) :
    handle_promotion Side.white [a, b, f, r, 'n'] = some (f, charDigit r - 1) ∧
    handle_promotion Side.black [a, b, f, r, 'n'] = some (f, charDigit r + 1) := by
  constructor <;>
    simp [handle_promotion, move_adjustments, List.getLast?] <;>
    ring

theorem entrySeen_append (l1 l2 : List MoveLogEntry) (e : MoveLogEntry) :
    entrySeen (l1 ++ l2) e = (entrySeen l1 e || entrySeen l2 e) := by
  simp [entrySeen]

theorem entrySeen_of_mem (l : List MoveLogEntry) (e x : MoveLogEntry)
    (hx : x ∈ l) (hid : x.id = e.id) : entrySeen l e = true := by
  unfold entrySeen
  rw [List.any_eq_true]
  exact ⟨x, hx, by simp [hid]⟩

theorem get_moves_second_filter_nil (st : ReconcilerState) (rendered : List MoveLogEntry) :
    rendered.filter (fun m => !entrySeen (get_moves st rendered).moves_elements m) = [] := by
  rw [List.filter_eq_nil_iff]
  intro m hm
  simp only [Bool.not_eq_true', Bool.not_eq_false]
  have hsplit : (get_moves st rendered).moves_elements =
      st.moves_elements ++ rendered.filter (fun x => !entrySeen st.moves_elements x) := rfl
  rw [hsplit, entrySeen_append, Bool.or_eq_true]
  by_cases hseen : entrySeen st.moves_elements m = true
  · exact Or.inl hseen
  · right
    have hfalse : entrySeen st.moves_elements m = false := by
      cases h : entrySeen st.moves_elements m
      · rfl
      · exact absurd h hseen
    exact entrySeen_of_mem _ _ m (List.mem_filter.mpr ⟨hm, by simp [hfalse]⟩) rfl

/-- Claim C9: polling the move log a second time over the same
rendered entries leaves the reconciler state unchanged (idempotence),
and the count of recorded entries carrying the identity of an
already-recorded entry never grows, whatever the entry texts are. -/
theorem get_moves_dedup (st : ReconcilerState) (rendered : List MoveLogEntry) :
    get_moves (get_moves st rendered) rendered = get_moves st rendered ∧
    ∀ e : MoveLogEntry, entrySeen st.moves_elements e = true →
      (get_moves st rendered).moves_elements.countP (fun r => r.id == e.id) =
        st.moves_elements.countP (fun r => r.id == e.id) := by
  constructor
  · have hnil := get_moves_second_filter_nil st rendered
    have hstep : get_moves (get_moves st rendered) rendered =
        ⟨(get_moves st rendered).moves_elements ++
            rendered.filter (fun m => !entrySeen (get_moves st rendered).moves_elements m),
          (get_moves st rendered).moves ++
            (rendered.filter (fun m => !entrySeen (get_moves st rendered).moves_elements m)).map
              (fun m => if isDigitStr m.text then m.text ++ "." else m.text)⟩ := rfl
    rw [hstep, hnil]
    simp
  · intro e he
    have hrw : (get_moves st rendered).moves_elements =
        st.moves_elements ++ rendered.filter (fun m => !entrySeen st.moves_elements m) := rfl
    rw [hrw, List.countP_append]
    suffices hz :
        (rendered.filter (fun m => !entrySeen st.moves_elements m)).countP
          (fun r => r.id == e.id) = 0 by
      omega
    rw [List.countP_eq_zero]
    intro m hmF
    obtain ⟨hmR, hmNew⟩ := List.mem_filter.mp hmF
    unfold entrySeen at he
    rw [List.any_eq_true] at he
    obtain ⟨r, hrA, hre⟩ := he
    simp only [beq_iff_eq] at hre ⊢
    intro hme
    have hseen : entrySeen st.moves_elements m = true := by
      unfold entrySeen
      rw [List.any_eq_true]
      exact ⟨r, hrA, by simp [hre, hme]⟩
    simp [hseen] at hmNew

/-- Witness for claim C9: a second poll over the same two rendered
entries changes nothing, and the entry with identity 0, already
recorded, is not counted twice even though the rendered list holds a
distinct entry with the same text "e4". -/
theorem get_moves_dedup_witness :
    get_moves (get_moves ⟨[⟨0, "e4"⟩], ["e4"]⟩ [⟨0, "e4"⟩, ⟨1, "e4"⟩])
        [⟨0, "e4"⟩, ⟨1, "e4"⟩] =
      get_moves ⟨[⟨0, "e4"⟩], ["e4"]⟩ [⟨0, "e4"⟩, ⟨1, "e4"⟩] ∧
    (get_moves ⟨[⟨0, "e4"⟩], ["e4"]⟩ [⟨0, "e4"⟩, ⟨1, "e4"⟩]).moves_elements.countP
        (fun r => r.id == (0 : Nat)) =
      List.countP (fun r => r.id == (0 : Nat)) [(⟨0, "e4"⟩ : MoveLogEntry)] :=
  ⟨(get_moves_dedup ⟨[⟨0, "e4"⟩], ["e4"]⟩ [⟨0, "e4"⟩, ⟨1, "e4"⟩]).1,
   (get_moves_dedup ⟨[⟨0, "e4"⟩], ["e4"]⟩ [⟨0, "e4"⟩, ⟨1, "e4"⟩]).2 ⟨0, "e4"⟩ (by decide)⟩

theorem pyRound_intCast (z : ℤ) : pyRound ((z : ℚ)) = z := by
  unfold pyRound
  rw [Int.fract_intCast, Int.floor_intCast]
  norm_num

/-- Round half to even cancels across a pair summing to an integer,
provided the integer is even whenever the fractional parts sit exactly
at one half. -/
theorem pyRound_add_cancel (a b : ℚ) (n : ℤ) (hab : a + b = (n : ℚ))
    (hpar : Int.fract a = 1/2 → (2 : ℤ) ∣ n) :
    pyRound a + pyRound b = n := by
  have hb : b = (n : ℚ) - a := by linarith
  by_cases h0 : Int.fract a = 0
  · have hfl := Int.floor_add_fract a
    rw [h0, add_zero] at hfl
    obtain ⟨z, hz⟩ : ∃ z : ℤ, a = (z : ℚ) := ⟨⌊a⌋, hfl.symm⟩
    subst hz
    subst hb
    have hcast : (n : ℚ) - (z : ℚ) = ((n - z : ℤ) : ℚ) := by push_cast; ring
    rw [hcast, pyRound_intCast, pyRound_intCast]
    omega
  · have hfa0 : 0 ≤ Int.fract a := Int.fract_nonneg a
    have hfa1 : Int.fract a < 1 := Int.fract_lt_one a
    have hfa0' : 0 < Int.fract a := lt_of_le_of_ne hfa0 (Ne.symm h0)
    have hfr : ((⌊a⌋ : ℤ) : ℚ) + Int.fract a = a := Int.floor_add_fract a
    have hbrep : b = ((n - ⌊a⌋ - 1 : ℤ) : ℚ) + (1 - Int.fract a) := by
      rw [hb]
      push_cast
      linarith
    have hfloorb : ⌊b⌋ = n - ⌊a⌋ - 1 := by
      rw [hbrep, Int.floor_int_add]
      have : ⌊1 - Int.fract a⌋ = 0 := by
        rw [Int.floor_eq_zero_iff]
        constructor
        · linarith
        · simp only [Set.mem_Ico] at *
          linarith
      omega
    have hfractb : Int.fract b = 1 - Int.fract a := by
      have h1 : Int.fract b = b - ((⌊b⌋ : ℤ) : ℚ) := (Int.self_sub_floor b).symm
      rw [hfloorb] at h1
      push_cast at h1
      linarith
    rcases lt_trichotomy (Int.fract a) (1/2 : ℚ) with hlt | heq | hgt
    · have pa : pyRound a = ⌊a⌋ := by
        unfold pyRound
        rw [if_pos hlt]
      have pb : pyRound b = ⌊b⌋ + 1 := by
        unfold pyRound
        rw [if_neg (by rw [hfractb]; linarith), if_pos (by rw [hfractb]; linarith)]
      rw [pa, pb, hfloorb]
      omega
    · have pa : pyRound a = if ⌊a⌋ % 2 = 0 then ⌊a⌋ else ⌊a⌋ + 1 := by
        unfold pyRound
        rw [if_neg (by rw [heq]; norm_num), if_neg (by rw [heq]; norm_num)]
      have pb : pyRound b = if ⌊b⌋ % 2 = 0 then ⌊b⌋ else ⌊b⌋ + 1 := by
        have hfb : Int.fract b = 1/2 := by rw [hfractb, heq]; norm_num
        unfold pyRound
        rw [if_neg (by rw [hfb]; norm_num), if_neg (by rw [hfb]; norm_num)]
      obtain ⟨k, hk⟩ := hpar heq
      rw [pa, pb, hfloorb]
      split_ifs <;> omega
    · have pa : pyRound a = ⌊a⌋ + 1 := by
        unfold pyRound
        rw [if_neg (by linarith), if_pos hgt]
      have pb : pyRound b = ⌊b⌋ := by
        unfold pyRound
        rw [if_pos (by rw [hfractb]; linarith)]
      rw [pa, pb, hfloorb]
      omega

theorem fract_div16_half (z : ℤ) (hf : Int.fract ((z : ℚ)/16) = 1/2) :
    ∃ k : ℤ, z = 16 * k + 8 := by
  refine ⟨⌊(z : ℚ)/16⌋, ?_⟩
  have h1 : Int.fract ((z : ℚ)/16) = (z : ℚ)/16 - ((⌊(z : ℚ)/16⌋ : ℤ) : ℚ) :=
    (Int.self_sub_floor ((z : ℚ)/16)).symm
  rw [h1] at hf
  have h2 : (z : ℚ) = 16 * ((⌊(z : ℚ)/16⌋ : ℤ) : ℚ) + 8 := by linarith
  exact_mod_cast h2

theorem even_of_odd_mul (c w k : ℤ) (hodd : Odd c) (heq : c * w = 16 * k + 8) :
    Even w := by
  have he : Even (c * w) := ⟨8 * k + 4, by omega⟩
  rcases Int.even_mul.mp he with h | h
  · exact absurd hodd (Int.not_odd_iff_even.mpr h)
  · exact h

/-- Claim C6: for every board origin and size, the screen point that
calculate_positions assigns to square e2 under the white orientation
and the one it assigns under the black orientation are point
reflections of each other through the board center: on each axis the
two rounded coordinates sum to twice the center coordinate, with the
per-coordinate Python round (half to even) taken into account. -/
theorem calculate_positions_point_reflection (ax ay w h : ℤ) :
    (calculate_positions Side.white ax ay w h 'e' 2).1 +
      (calculate_positions Side.black ax ay w h 'e' 2).1 = 2 * ax + w ∧
    (calculate_positions Side.white ax ay w h 'e' 2).2 +
      (calculate_positions Side.black ax ay w h 'e' 2).2 = 2 * ay + h := by
  have hw4 : files.indexOf 'e' = 4 := by decide
  have hb3 : files.reverse.indexOf 'e' = 3 := by decide
  unfold calculate_positions
  rw [hw4, hb3]
  constructor
  · have hx1 : (w : ℚ)/8 * ((4 : ℕ) : ℚ) + ((w : ℚ)/8)/2 + ((ax : ℤ) : ℚ) =
        ((9 * w : ℤ) : ℚ)/16 + ((ax : ℤ) : ℚ) := by push_cast; ring
    refine pyRound_add_cancel _ _ _ (by push_cast; ring) ?_
    intro hf
    rw [hx1, Int.fract_add_int] at hf
    obtain ⟨k, hk⟩ := fract_div16_half (9 * w) hf
    obtain ⟨u, hu⟩ := even_of_odd_mul 9 w k ⟨4, by ring⟩ hk
    exact ⟨ax + u, by omega⟩
  · have hy1 : (h : ℚ)/8 * (((8 - 2 : ℤ) : ℤ) : ℚ) + ((h : ℚ)/8)/2 + ((ay : ℤ) : ℚ) =
        ((13 * h : ℤ) : ℚ)/16 + ((ay : ℤ) : ℚ) := by push_cast; ring
    refine pyRound_add_cancel _ _ _ (by push_cast; ring) ?_
    intro hf
    rw [hy1, Int.fract_add_int] at hf
    obtain ⟨k, hk⟩ := fract_div16_half (13 * h) hf
    obtain ⟨u, hu⟩ := even_of_odd_mul 13 h k ⟨6, by ring⟩ hk
    exact ⟨ay + u, by omega⟩

end ChessBot
